import Mathlib

/-!
Verification of the arctic-nord-dock sources: a shallow embedding of the
color formatter (`format_color` in context_menu.c), the clipboard owner and
selection-request handler (dock.c), the dock event handler (`handle_event`
in dock.c) over the palette model (color_box.c), the context-menu session
loop (`context_menu_show` in context_menu.c) and the startup layout
computation (main.c), together with theorems settling the specification
claims about them.

Machine integers of the C sources are modelled as `Nat`/`Int` (all involved
quantities are small and never overflow their 32-bit C types on the inputs
considered); `double` arithmetic is modelled exactly over `ℚ`, with the C
library rounding functions made explicit (`round` rounds half away from
zero, `printf "%.2f"` rounds to nearest, ties to even).
-/

namespace ArcticNord

/-! ### Decimal and hexadecimal digit strings (the `snprintf` conversions) -/

/-- Decimal digits of `n`, most significant first, accumulator style; the
first argument is fuel (one digit is consumed per step, so any fuel above
the digit count gives the same result). -/
def decCharsAux : ℕ → ℕ → List Char → List Char
  | 0, _, acc => acc
  | fuel + 1, n, acc =>
    if n < 10 then Nat.digitChar n :: acc
    else decCharsAux fuel (n / 10) (Nat.digitChar (n % 10) :: acc)

/-- Decimal digits of `n`, most significant first: the `%u` conversion. -/
def decChars (n : ℕ) : List Char := decCharsAux (n + 1) n []

/-- The `%d` conversion for a C `int`. -/
def intChars (i : ℤ) : List Char :=
  if i < 0 then '-' :: decChars (-i).toNat else decChars i.toNat

/-- The uppercase hexadecimal digit character for `n < 16`. -/
def hexCharUpper (n : ℕ) : Char :=
  if n < 10 then Char.ofNat ('0'.toNat + n) else Char.ofNat ('A'.toNat + (n - 10))

/-- The lowercase hexadecimal digit character for `n < 16`. -/
def hexCharLower (n : ℕ) : Char :=
  if n < 10 then Char.ofNat ('0'.toNat + n) else Char.ofNat ('a'.toNat + (n - 10))

/-- The `%02X` conversion of a byte value (`n < 256` at every use site). -/
def hexByteUpper (n : ℕ) : List Char := [hexCharUpper (n / 16), hexCharUpper (n % 16)]

/-- The `%02x` conversion of a byte value. -/
def hexByteLower (n : ℕ) : List Char := [hexCharLower (n / 16), hexCharLower (n % 16)]

/-! ### Rounding of `double` values, modelled over `ℚ` -/

/-- C `round`: round half away from zero. -/
def cround (x : ℚ) : ℤ :=
  if 0 ≤ x then ⌊x + 1 / 2⌋ else -⌊-x + 1 / 2⌋

/-- Round to nearest, ties to even: the rounding used by `printf "%.2f"`. -/
def rne (x : ℚ) : ℤ :=
  if Int.fract x = 1 / 2 then (if 2 ∣ ⌊x⌋ then ⌊x⌋ else ⌊x⌋ + 1) else round x

/-- Exactly two decimal digits, zero padded: the fractional part of `%.2f`. -/
def pad2 (k : ℕ) : List Char := [Nat.digitChar (k / 10 % 10), Nat.digitChar (k % 10)]

/-- `%.2f` of a nonnegative value. -/
def fixed2abs (q : ℚ) : List Char :=
  let m := (rne (q * 100)).toNat
  decChars (m / 100) ++ '.' :: pad2 (m % 100)

/-- The `%.2f` conversion. -/
def fixed2 (q : ℚ) : List Char :=
  if q < 0 then '-' :: fixed2abs (-q) else fixed2abs q

/-! ### `format_color` (context_menu.c, lines 32-96)

The `ColorFormat` argument is modelled by its underlying C `int` value, so
that the claim about out-of-range format values can be stated; values
`0..7` are the eight enum variants in declaration order. -/

/-- The saturation variable `s` of the HSL branch for `delta != 0`
(context_menu.c line 63), as a function of `max` and `min`. -/
def hslS (mx mn : ℚ) : ℚ :=
  if (mx + mn) / 2 < 1 / 2 then (mx - mn) / (mx + mn) else (mx - mn) / (2 - mx - mn)

/-- The hue variable `h` of the HSL branch for `delta != 0`
(context_menu.c lines 64-74): branch selected by which channel equals the
maximum, tried in the order R, G, B; scaled by 60 and shifted into
[0, 360) when negative. -/
def hslH (rn gn bn mx mn : ℚ) : ℚ :=
  let d := mx - mn
  let h0 := if mx = rn then (gn - bn) / d
            else if mx = gn then 2 + (bn - rn) / d
            else 4 + (rn - gn) / d
  let h1 := h0 * 60
  if h1 < 0 then h1 + 360 else h1

/-- The HSL branch of `format_color` (context_menu.c lines 54-79): returns
the three integers printed by `hsl(%d, %d%%, %d%%);`. -/
def hslParts (r g b : ℕ) : ℤ × ℤ × ℤ :=
  let rn : ℚ := (r : ℚ) / 255
  let gn : ℚ := (g : ℚ) / 255
  let bn : ℚ := (b : ℚ) / 255
  let mx := max rn (max gn bn)
  let mn := min rn (min gn bn)
  let d := mx - mn
  let l := (mx + mn) / 2
  if d = 0 then (0, 0, cround (l * 100))
  else
    (cround (hslH rn gn bn mx mn), cround (hslS mx mn * 100), cround (l * 100))

/-- Character content written by `format_color` (for a buffer large enough
that `snprintf` does not truncate). -/
def formatChars (color format : ℕ) : List Char :=
  let r := color / 65536 % 256
  let g := color / 256 % 256
  let b := color % 256
  let rn : ℚ := (r : ℚ) / 255
  let gn : ℚ := (g : ℚ) / 255
  let bn : ℚ := (b : ℚ) / 255
  match format with
  | 0 => '#' :: (hexByteUpper r ++ hexByteUpper g ++ hexByteUpper b)
  | 1 => '0' :: 'x' :: (hexByteLower r ++ hexByteLower g ++ hexByteLower b)
  | 2 => "rgb(".data ++ decChars r ++ ", ".data ++ decChars g ++ ", ".data ++
         decChars b ++ ");".data
  | 3 => "rgba(".data ++ decChars r ++ ", ".data ++ decChars g ++ ", ".data ++
         decChars b ++ ", 1);".data
  | 4 =>
    let hsl := hslParts r g b
    "hsl(".data ++ intChars hsl.1 ++ ", ".data ++ intChars hsl.2.1 ++ "%, ".data ++
      intChars hsl.2.2 ++ "%);".data
  | 5 => fixed2 rn ++ "f, ".data ++ fixed2 gn ++ "f, ".data ++ fixed2 bn ++ "f".data
  | 6 => "vec3(".data ++ fixed2 rn ++ "f, ".data ++ fixed2 gn ++ "f, ".data ++
         fixed2 bn ++ "f)".data
  | 7 => "vec4(".data ++ fixed2 rn ++ "f, ".data ++ fixed2 gn ++ "f, ".data ++
         fixed2 bn ++ "f, 1.00f)".data
  | _ => []

/-- `format_color` (context_menu.c lines 32-96), as the string it writes. -/
def format_color (color format : ℕ) : String := ⟨formatChars color format⟩

/-- A hexadecimal digit character (used to state the grammar of the two
hex formats). -/
def isHexDigitChar (c : Char) : Bool :=
  c.isDigit || ('a' ≤ c && c ≤ 'f') || ('A' ≤ c && c ≤ 'F')

/-! ### Clipboard buffer (dock.c `set_clipboard`, app_context.h) -/

def CLIPBOARD_BUFFER_SIZE : ℕ := 64

/-- The string stored in `clipboard_text` after `set_clipboard(text)`
(dock.c lines 427-452): `strncpy` of at most `CLIPBOARD_BUFFER_SIZE - 1`
characters with a forced terminating NUL at index 63. -/
def set_clipboard (text : List Char) : List Char :=
  text.take (CLIPBOARD_BUFFER_SIZE - 1)

/-! ### Startup layout (main.c lines 30-37, dock.h) -/

def PALETTE_LENGTH : ℕ := 16

def PADDING : ℕ := 5

/-- `app.rect_size` computed in `main` (`DOCK_HEIGHT_MARGIN = 0.20`; the
cast to `uint32_t` truncates the nonnegative quotient, i.e. takes the
floor). -/
def rect_size (screen_height : ℕ) : ℕ :=
  (⌊((screen_height : ℚ) - (1 / 5 : ℚ) * screen_height) / (PALETTE_LENGTH : ℚ)⌋).toNat

/-- `app.dock_width` computed in `main`. -/
def dock_width (screen_height : ℕ) : ℕ := 2 * PADDING + rect_size screen_height

/-- `app.dock_height` computed in `main`. -/
def dock_height (screen_height : ℕ) : ℕ :=
  PALETTE_LENGTH * (rect_size screen_height + PADDING) + PADDING

/-! ### Palette model (color_box.c)

The sixteen boxes created by the startup code of color_box.c, parametrised
by `rect` (the value of `app.rect_size`).  Box `i` sits at
`x = PADDING`, `y = PADDING + i * (rect + PADDING)`; `is_point_inside_box`
is inclusive of both boundaries.  Event coordinates are modelled as `ℕ`
(the C code converts the `int` event coordinates to `uint32_t`; only
nonnegative coordinates are considered here). -/

/-- `color_boxes[i].y` as set by the startup loop in color_box.c. -/
def boxY (rect : ℕ) (i : Fin 16) : ℕ := PADDING + i.val * (rect + PADDING)

/-- `color_boxes[i].color`: the Arctic Nord palette (color_box.h). -/
def boxColor (i : Fin 16) : ℕ :=
  [0x2E3440, 0x3B4252, 0x434C5E, 0x4C566A,
   0xD8DEE9, 0xE5E9F0, 0xECEFF4, 0x8FBCBB,
   0x88C0D0, 0x81A1C1, 0x5E81AC, 0xBF616A,
   0xD08770, 0xEBCB8B, 0xA3BE8C, 0xB48EAD].getD i.val 0

/-- `is_point_inside_box` (color_box.c lines 190-196). -/
def is_point_inside_box (rect x y : ℕ) (i : Fin 16) : Bool :=
  decide (PADDING ≤ x) && decide (x ≤ PADDING + rect) &&
    decide (boxY rect i ≤ y) && decide (y ≤ boxY rect i + rect)

/-- `find_box` (color_box.c lines 199-207): first box containing the point. -/
def find_box (rect x y : ℕ) : Option (Fin 16) :=
  (List.finRange 16).find? (fun i => is_point_inside_box rect x y i)

/-! ### Dock event handler (dock.c `handle_event`, lines 337-410)

The mutable state touched by `handle_event`: the per-box `is_clicked`
flags, the `last_clicked_box` pointer (as an optional index), the global
`current_format`, the clipboard buffer, and a count of `set_clipboard`
calls (clipboard commits).  A `ButtonPress` event carries the value that
the nested modal loop `context_menu_show` would return (that loop consumes
its own events; it is modelled separately below), used only on a
right-click that lands on a box. -/

structure DockState where
  clicked : Fin 16 → Bool
  lastClicked : Option (Fin 16)
  fmt : ℕ
  clipboard : List Char
  commits : ℕ

/-- The state at startup: no box clicked, `current_format = FORMAT_HTML_HEX`,
empty clipboard buffer. -/
def initState : DockState :=
  { clicked := fun _ => false, lastClicked := none, fmt := 0, clipboard := [], commits := 0 }

/-- `copy_color_from_box` (color_box.c lines 111-118): format the box color
in the current format and commit it to the clipboard. -/
def copy_color_from_box (st : DockState) (i : Fin 16) : DockState :=
  { st with clipboard := set_clipboard (formatChars (boxColor i) st.fmt),
            commits := st.commits + 1 }

inductive DockEvent
  | buttonPress (button x y : ℕ) (menuResult : ℤ)
  | buttonRelease (x y : ℕ)
  | motionNotify (x y : ℕ)

/-- `handle_event` (dock.c lines 337-410), restricted to the press/release/
motion cases (`Button1 = 1`, `Button3 = 3`). -/
def handle_event (rect : ℕ) (st : DockState) (e : DockEvent) : DockState :=
  match e with
  | .buttonPress button x y menuResult =>
    if button = 1 then
      match find_box rect x y with
      | some i =>
        let st1 := copy_color_from_box st i
        { st1 with clicked := fun j => if j = i then true else st1.clicked j,
                   lastClicked := some i }
      | none => st
    else if button = 3 then
      match find_box rect x y with
      | some i =>
        if 0 ≤ menuResult then
          copy_color_from_box { st with fmt := menuResult.toNat } i
        else st
      | none => st
    else st
  | .buttonRelease x y =>
    match find_box rect x y with
    | some i =>
      if st.lastClicked = some i then
        { st with clicked := fun j => if j = i then false else st.clicked j,
                  lastClicked := none }
      else st
    | none => st
  | .motionNotify x y =>
    match st.lastClicked with
    | some j =>
      if find_box rect x y ≠ some j then
        { st with clicked := fun k => if k = j then false else st.clicked k,
                  lastClicked := none }
      else st
    | none => st

/-- The outer event loop of main.c: fold `handle_event` over a sequence. -/
def run_events (rect : ℕ) (st : DockState) : List DockEvent → DockState
  | [] => st
  | e :: rest => run_events rect (handle_event rect st e) rest

/-- Event sequences in which every button press at a point is immediately
preceded by a motion event at the same point (as happens when the pointer
reaches the press location while motion events are being delivered). -/
def okSeq : List DockEvent → Bool
  | [] => true
  | .motionNotify x y :: .buttonPress _ x2 y2 _ :: rest =>
    decide (x2 = x) && decide (y2 = y) && okSeq rest
  | .motionNotify _ _ :: rest => okSeq rest
  | .buttonRelease _ _ :: rest => okSeq rest
  | .buttonPress _ _ _ _ :: _ => false

/-! ### Context-menu session (context_menu.c `context_menu_show`, lines 131-227)

The session state of one popup invocation and the body of its private
event loop.  `MenuEvent.press y` is a `ButtonPress` delivered to the menu
window at vertical offset `y`; `MenuEvent.otherPress` is a `ButtonPress`
delivered to any other window; `otherEvent` is any non-press event on
another window.  C integer division truncates toward zero, hence
`Int.div`. -/

def MENU_ITEM_HEIGHT : ℤ := 20

def FORMAT_COUNT : ℤ := 8

def menu_height : ℤ := MENU_ITEM_HEIGHT * FORMAT_COUNT

inductive MenuEvent
  | otherPress
  | otherEvent
  | expose
  | motion (y : ℤ)
  | leave
  | press (y : ℤ)

structure MenuState where
  hover : ℤ
  selected : ℤ
  done : Bool

def menuInit : MenuState := { hover := -1, selected := -1, done := false }

/-- One iteration of the `while (!done)` loop of `context_menu_show`. -/
def menu_step (s : MenuState) (e : MenuEvent) : MenuState :=
  match e with
  | .otherPress => { s with done := true }
  | .otherEvent => s
  | .expose => s
  | .motion y =>
    let nh := Int.tdiv y MENU_ITEM_HEIGHT
    { s with hover := if nh < 0 ∨ FORMAT_COUNT ≤ nh then -1 else nh }
  | .leave => { s with hover := -1 }
  | .press y =>
    if y < 0 ∨ menu_height < y then { s with done := true }
    else { s with selected := Int.tdiv y MENU_ITEM_HEIGHT, done := true }

/-- The private event loop: consume events until `done`, then return
`selected_item`; `none` if the event list is exhausted before the session
ends (the real loop would keep blocking). -/
def menu_loop : MenuState → List MenuEvent → Option ℤ
  | s, [] => if s.done then some s.selected else none
  | s, e :: rest =>
    let s2 := menu_step s e
    if s2.done then some s2.selected else menu_loop s2 rest

/-- `context_menu_show` as a function of the events its session consumes. -/
def context_menu_show (evs : List MenuEvent) : Option ℤ := menu_loop menuInit evs

/-! ### Selection requests (dock.c `handle_selection_request`, lines 454-484) -/

/-- The request target, up to the atoms the handler distinguishes: the
three supported data representations, the `TARGETS` capability query, and
any other atom. -/
inductive SelTarget
  | targets
  | xaString
  | utf8String
  | compoundText
  | other (atom : ℕ)
deriving DecidableEq

/-- Content written by `XChangeProperty` on the requestor window. -/
inductive PropWrite
  | atoms (l : List SelTarget)
  | bytes (s : List Char)
deriving DecidableEq

/-- Observable effect of one `handle_selection_request` call: the property
written on the requestor (if any), whether the `SelectionNotify` reply
carries `property = None`, and whether a reply event was sent at all. -/
structure SelReply where
  written : Option PropWrite
  notifyPropertyNone : Bool
  notifySent : Bool
deriving DecidableEq

/-- `handle_selection_request` (dock.c lines 454-484), given the current
clipboard buffer contents. -/
def handle_selection_request (clip : List Char) (target : SelTarget) : SelReply :=
  match target with
  | .targets =>
    { written := some (.atoms [.targets, .xaString, .utf8String, .compoundText]),
      notifyPropertyNone := false, notifySent := true }
  | .xaString => { written := some (.bytes clip), notifyPropertyNone := false, notifySent := true }
  | .utf8String => { written := some (.bytes clip), notifyPropertyNone := false, notifySent := true }
  | .compoundText =>
    { written := some (.bytes clip), notifyPropertyNone := false, notifySent := true }
  | .other _ => { written := none, notifyPropertyNone := true, notifySent := true }

/-! ### Helper lemmas -/

theorem floor_val {z : ℤ} {x : ℚ} (h1 : (z : ℚ) ≤ x) (h2 : x < z + 1) : ⌊x⌋ = z :=
  Int.floor_eq_iff.mpr ⟨h1, h2⟩

theorem cround_val {z : ℤ} {x : ℚ} (hx : 0 ≤ x) (h1 : (z : ℚ) ≤ x + 1 / 2)
    (h2 : x + 1 / 2 < z + 1) : cround x = z := by
  unfold cround
  rw [if_pos hx]
  exact floor_val h1 h2

end ArcticNord

namespace ArcticNord

/-! ### C9: the startup layout computation -/

/-- C9: the startup layout satisfies
`edge = floor((screenHeight - marginFraction*screenHeight) / paletteLength)`
with `marginFraction = 1/5` and `paletteLength = 16`,
`panelWidth = 2*padding + edge` and
`panelHeight = paletteLength*(edge+padding) + padding` with `padding = 5`;
for `screenHeight = 1000` this yields edge 50, panel width 60 and panel
height 885. -/
theorem layout_formula :
    (∀ h : ℕ, (rect_size h : ℤ) = ⌊((h : ℚ) - (1 / 5 : ℚ) * h) / 16⌋) ∧
    (∀ h : ℕ, dock_width h = 2 * 5 + rect_size h) ∧
    (∀ h : ℕ, dock_height h = 16 * (rect_size h + 5) + 5) ∧
    rect_size 1000 = 50 ∧ dock_width 1000 = 60 ∧ dock_height 1000 = 885 := by
  have hfloor : ∀ h : ℕ, ⌊((h : ℚ) - (1 / 5 : ℚ) * h) / 16⌋ = (⌊((h : ℚ) - (1 / 5 : ℚ) * h) / 16⌋ : ℤ) := fun _ => rfl
  have hval : ∀ h : ℕ, rect_size h = (⌊((h : ℚ) - (1 / 5 : ℚ) * h) / 16⌋).toNat := by
    intro h
    unfold rect_size PALETTE_LENGTH
    norm_num
  have hnonneg : ∀ h : ℕ, (0 : ℤ) ≤ ⌊((h : ℚ) - (1 / 5 : ℚ) * h) / 16⌋ := by
    intro h
    apply Int.floor_nonneg.mpr
    have : ((h : ℚ) - (1 / 5 : ℚ) * h) / 16 = (h : ℚ) * (1 / 20) := by ring
    rw [this]
    positivity
  have h1000 : rect_size 1000 = 50 := by
    rw [hval 1000]
    rw [show (((1000 : ℕ) : ℚ) - (1 / 5 : ℚ) * ((1000 : ℕ) : ℚ)) / 16 = ((50 : ℤ) : ℚ) by push_cast; norm_num]
    rw [Int.floor_intCast]
    rfl
  refine ⟨fun h => ?_, fun h => rfl, fun h => rfl, h1000, ?_, ?_⟩
  · rw [hval h, Int.toNat_of_nonneg (hnonneg h)]
  · unfold dock_width PADDING
    rw [h1000]
  · unfold dock_height PALETTE_LENGTH PADDING
    rw [h1000]

/-! ### C8: the clipboard buffer is bounded, with truncation semantics -/

/-- C8: after `set_clipboard`, the stored string has at most
`CLIPBOARD_BUFFER_SIZE - 1 = 63` characters; it is an initial segment of
the given text (truncation, not rejection), and text that fits is stored
unchanged. -/
theorem set_clipboard_bounded (t : List Char) :
    (set_clipboard t).length ≤ CLIPBOARD_BUFFER_SIZE - 1 ∧
    (∃ rest, set_clipboard t ++ rest = t) ∧
    (t.length ≤ CLIPBOARD_BUFFER_SIZE - 1 → set_clipboard t = t) := by
  refine ⟨?_, ⟨t.drop (CLIPBOARD_BUFFER_SIZE - 1), List.take_append_drop _ t⟩, ?_⟩
  · simp only [set_clipboard, List.length_take]
    omega
  · intro h
    exact List.take_of_length_le h

/-- Witness for `set_clipboard_bounded` at a concrete input. -/
theorem set_clipboard_bounded_w :
    "nord0".data.length ≤ CLIPBOARD_BUFFER_SIZE - 1 ∧ set_clipboard "nord0".data = "nord0".data :=
  ⟨by decide, (set_clipboard_bounded "nord0".data).2.2 (by decide)⟩

/-! ### C5: selection requests are always answered -/

/-- C5: a `TARGETS` request is answered with the same fixed ordered list of
supported representations whatever the clipboard buffer holds; a request
for an unsupported representation gets `property = None` (an explicit
negative response, no property written); and every request gets a
`SelectionNotify` reply. -/
theorem selection_request_spec :
    (∀ clip : List Char,
      handle_selection_request clip .targets =
        { written := some (.atoms [.targets, .xaString, .utf8String, .compoundText]),
          notifyPropertyNone := false, notifySent := true }) ∧
    (∀ (clip : List Char) (a : ℕ),
      (handle_selection_request clip (.other a)).written = none ∧
      (handle_selection_request clip (.other a)).notifyPropertyNone = true) ∧
    (∀ (clip : List Char) (t : SelTarget), (handle_selection_request clip t).notifySent = true) := by
  refine ⟨fun _ => rfl, fun _ _ => ⟨rfl, rfl⟩, fun clip t => ?_⟩
  cases t <;> rfl

/-! ### Digit-string lemmas -/

theorem decCharsAux_length_ge :
    ∀ (fuel n : ℕ) (acc : List Char), acc.length ≤ (decCharsAux fuel n acc).length := by
  intro fuel
  induction fuel with
  | zero => intro n acc; simp [decCharsAux]
  | succ fuel ih =>
    intro n acc
    simp only [decCharsAux]
    split
    · simp
    · calc acc.length ≤ (Nat.digitChar (n % 10) :: acc).length := by simp
        _ ≤ _ := ih (n / 10) (Nat.digitChar (n % 10) :: acc)

theorem decChars_length_pos (n : ℕ) : 0 < (decChars n).length := by
  unfold decChars
  simp only [decCharsAux]
  split
  · simp
  · calc 0 < (Nat.digitChar (n % 10) :: ([] : List Char)).length := by simp
      _ ≤ _ := decCharsAux_length_ge n (n / 10) _

theorem decChars_ne_nil (n : ℕ) : decChars n ≠ [] :=
  List.ne_nil_of_length_pos (decChars_length_pos n)

theorem decCharsAux_length_le :
    ∀ (fuel n : ℕ) (acc : List Char) (k : ℕ), n < fuel → n < 10 ^ k → 1 ≤ k →
      (decCharsAux fuel n acc).length ≤ k + acc.length := by
  intro fuel
  induction fuel with
  | zero => intro n acc k hn; omega
  | succ fuel ih =>
    intro n acc k hn hk hk1
    simp only [decCharsAux]
    split
    · simp
      omega
    · rename_i h10
      push_neg at h10
      have hk2 : 2 ≤ k := by
        rcases Nat.lt_or_ge k 2 with h | h
        · interval_cases k
          · simp at hk
            omega
        · exact h
      have hdiv : n / 10 < 10 ^ (k - 1) := by
        apply Nat.div_lt_of_lt_mul
        calc n < 10 ^ k := hk
          _ = 10 * 10 ^ (k - 1) := by
            rw [← pow_succ']
            congr 1
            omega
      have hfuel : n / 10 < fuel := by
        have : n / 10 < n := Nat.div_lt_self (by omega) (by omega)
        omega
      have := ih (n / 10) (Nat.digitChar (n % 10) :: acc) (k - 1) hfuel hdiv (by omega)
      simp at this
      omega

theorem decChars_length_le {n k : ℕ} (hk : n < 10 ^ k) (hk1 : 1 ≤ k) :
    (decChars n).length ≤ k := by
  have := decCharsAux_length_le (n + 1) n [] k (Nat.lt_succ_self n) hk hk1
  simpa using this

theorem decChars_length_le_three {n : ℕ} (h : n < 1000) : (decChars n).length ≤ 3 :=
  decChars_length_le (k := 3) (by norm_num; omega) (by norm_num)

theorem decChars_length_le_one {n : ℕ} (h : n < 10) : (decChars n).length ≤ 1 :=
  decChars_length_le (k := 1) (by simpa using h) le_rfl

theorem hexCharUpper_isHex {n : ℕ} (h : n < 16) : isHexDigitChar (hexCharUpper n) = true := by
  interval_cases n <;> decide

theorem hexCharLower_isHex {n : ℕ} (h : n < 16) : isHexDigitChar (hexCharLower n) = true := by
  interval_cases n <;> decide

theorem fixed2_length_pos (q : ℚ) : 0 < (fixed2 q).length := by
  unfold fixed2 fixed2abs
  split
  · simp
  · simp

theorem fixed2_ne_nil (q : ℚ) : fixed2 q ≠ [] :=
  List.ne_nil_of_length_pos (fixed2_length_pos q)

/-! ### Branch equations of `formatChars` -/

theorem formatChars_zero (c : ℕ) :
    formatChars c 0 =
      '#' :: (hexByteUpper (c / 65536 % 256) ++ hexByteUpper (c / 256 % 256) ++
        hexByteUpper (c % 256)) := rfl

theorem formatChars_one (c : ℕ) :
    formatChars c 1 =
      '0' :: 'x' :: (hexByteLower (c / 65536 % 256) ++ hexByteLower (c / 256 % 256) ++
        hexByteLower (c % 256)) := rfl

theorem formatChars_two (c : ℕ) :
    formatChars c 2 =
      "rgb(".data ++ decChars (c / 65536 % 256) ++ ", ".data ++ decChars (c / 256 % 256) ++
        ", ".data ++ decChars (c % 256) ++ ");".data := rfl

theorem formatChars_three (c : ℕ) :
    formatChars c 3 =
      "rgba(".data ++ decChars (c / 65536 % 256) ++ ", ".data ++ decChars (c / 256 % 256) ++
        ", ".data ++ decChars (c % 256) ++ ", 1);".data := rfl

theorem formatChars_four (c : ℕ) :
    formatChars c 4 =
      "hsl(".data ++ intChars (hslParts (c / 65536 % 256) (c / 256 % 256) (c % 256)).1 ++
        ", ".data ++ intChars (hslParts (c / 65536 % 256) (c / 256 % 256) (c % 256)).2.1 ++
        "%, ".data ++ intChars (hslParts (c / 65536 % 256) (c / 256 % 256) (c % 256)).2.2 ++
        "%);".data := rfl

theorem formatChars_five (c : ℕ) :
    formatChars c 5 =
      fixed2 ((c / 65536 % 256 : ℕ) / 255) ++ "f, ".data ++
        fixed2 ((c / 256 % 256 : ℕ) / 255) ++ "f, ".data ++
        fixed2 ((c % 256 : ℕ) / 255) ++ "f".data := rfl

theorem formatChars_six (c : ℕ) :
    formatChars c 6 =
      "vec3(".data ++ fixed2 ((c / 65536 % 256 : ℕ) / 255) ++ "f, ".data ++
        fixed2 ((c / 256 % 256 : ℕ) / 255) ++ "f, ".data ++
        fixed2 ((c % 256 : ℕ) / 255) ++ "f)".data := rfl

theorem formatChars_seven (c : ℕ) :
    formatChars c 7 =
      "vec4(".data ++ fixed2 ((c / 65536 % 256 : ℕ) / 255) ++ "f, ".data ++
        fixed2 ((c / 256 % 256 : ℕ) / 255) ++ "f, ".data ++
        fixed2 ((c % 256 : ℕ) / 255) ++ "f, 1.00f)".data := rfl

theorem formatChars_default (c k : ℕ) : formatChars c (k + 8) = [] := rfl

/-! ### C6: `format_color` is total and grammar-conforming -/

/-- C6: for every 24-bit color and each of the 8 defined formats,
`format_color` yields a non-empty string (the function is deterministic by
construction); both hex formats consist of their prefix followed by
exactly 6 hexadecimal digits; any format value outside the 8 defined
variants yields the empty string. -/
theorem format_color_total (c : ℕ) (hc : c < 2 ^ 24) :
    (∀ f, f < 8 → format_color c f ≠ "") ∧
    (∀ f, 8 ≤ f → format_color c f = "") ∧
    (∃ s : List Char, (format_color c 0).data = '#' :: s ∧ s.length = 6 ∧
      ∀ ch ∈ s, isHexDigitChar ch = true) ∧
    (∃ s : List Char, (format_color c 1).data = '0' :: 'x' :: s ∧ s.length = 6 ∧
      ∀ ch ∈ s, isHexDigitChar ch = true) := by
  have hdata : ∀ f, (format_color c f).data = formatChars c f := fun _ => rfl
  have hne : ∀ f, formatChars c f ≠ [] → format_color c f ≠ "" := by
    intro f hf h
    apply hf
    have := congrArg String.data h
    simpa [hdata] using this
  refine ⟨?_, ?_, ?_, ?_⟩
  · intro f hf
    apply hne
    interval_cases f
    · rw [formatChars_zero]
      simp
    · rw [formatChars_one]
      simp
    · rw [formatChars_two]
      simp
    · rw [formatChars_three]
      simp
    · rw [formatChars_four]
      simp
    · rw [formatChars_five]
      simp [List.append_eq_nil, fixed2_ne_nil]
    · rw [formatChars_six]
      simp
    · rw [formatChars_seven]
      simp
  · intro f hf
    obtain ⟨k, rfl⟩ : ∃ k, f = k + 8 := ⟨f - 8, by omega⟩
    show (⟨formatChars c (k + 8)⟩ : String) = ""
    rw [formatChars_default]
  · refine ⟨hexByteUpper (c / 65536 % 256) ++ hexByteUpper (c / 256 % 256) ++
      hexByteUpper (c % 256), ?_, ?_, ?_⟩
    · rw [hdata, formatChars_zero]
    · simp [hexByteUpper]
    · intro ch hch
      simp only [hexByteUpper, List.mem_append, List.mem_cons, List.not_mem_nil, or_false] at hch
      rcases hch with (h | h) | h <;> rcases h with h | h <;>
        rw [h] <;> exact hexCharUpper_isHex (by omega)
  · refine ⟨hexByteLower (c / 65536 % 256) ++ hexByteLower (c / 256 % 256) ++
      hexByteLower (c % 256), ?_, ?_, ?_⟩
    · rw [hdata, formatChars_one]
    · simp [hexByteLower]
    · intro ch hch
      simp only [hexByteLower, List.mem_append, List.mem_cons, List.not_mem_nil, or_false] at hch
      rcases hch with (h | h) | h <;> rcases h with h | h <;>
        rw [h] <;> exact hexCharLower_isHex (by omega)

/-- Witness for `format_color_total` at a concrete input. -/
theorem format_color_total_w :
    (0x2E3440 < 2 ^ 24) ∧ format_color 0x2E3440 0 ≠ "" ∧ format_color 0x2E3440 9 = "" :=
  ⟨by decide, (format_color_total 0x2E3440 (by decide)).1 0 (by decide),
    (format_color_total 0x2E3440 (by decide)).2.1 9 (by decide)⟩

/-! ### The pressed-flag invariant of the dock state machine -/

/-- Every box whose `is_clicked` flag is set is the `last_clicked_box`. -/
def InvClicked (st : DockState) : Prop :=
  ∀ i, st.clicked i = true → st.lastClicked = some i

theorem invClicked_init : InvClicked initState := by
  intro i hi
  simp [initState] at hi

theorem invClicked_motion (rect x y : ℕ) (st : DockState) (h : InvClicked st) :
    InvClicked (handle_event rect st (.motionNotify x y)) ∧
    ∀ i, (handle_event rect st (.motionNotify x y)).clicked i = true →
      find_box rect x y = some i := by
  cases hlast : st.lastClicked with
  | none =>
    have heq : handle_event rect st (.motionNotify x y) = st := by
      simp [handle_event, hlast]
    rw [heq]
    refine ⟨h, fun i hi => ?_⟩
    have h3 := h i hi
    rw [hlast] at h3
    exact absurd h3 (by simp)
  | some j =>
    by_cases hf : find_box rect x y = some j
    · have heq : handle_event rect st (.motionNotify x y) = st := by
        simp [handle_event, hlast, hf]
      rw [heq]
      refine ⟨h, fun i hi => ?_⟩
      have h3 := h i hi
      rw [hlast] at h3
      injection h3 with hji
      rw [← hji]
      exact hf
    · have heq : handle_event rect st (.motionNotify x y) =
          { st with clicked := fun k => if k = j then false else st.clicked k,
                    lastClicked := none } := by
        simp [handle_event, hlast, hf]
      rw [heq]
      have hnone : ∀ i : Fin 16, ¬ ((if i = j then false else st.clicked i) = true) := by
        intro i hi
        by_cases hij : i = j
        · rw [if_pos hij] at hi
          exact absurd hi (by simp)
        · rw [if_neg hij] at hi
          have h3 := h i hi
          rw [hlast] at h3
          injection h3 with hji
          exact absurd hji.symm hij
      exact ⟨fun i hi => absurd hi (hnone i), fun i hi => absurd hi (hnone i)⟩

theorem invClicked_press (rect b x y : ℕ) (m : ℤ) (st : DockState) (h : InvClicked st)
    (h2 : ∀ i, st.clicked i = true → find_box rect x y = some i) :
    InvClicked (handle_event rect st (.buttonPress b x y m)) := by
  by_cases hb1 : b = 1
  · cases hfb : find_box rect x y with
    | none =>
      have heq : handle_event rect st (.buttonPress b x y m) = st := by
        simp [handle_event, hb1, hfb]
      rw [heq]
      exact h
    | some i =>
      have heq : handle_event rect st (.buttonPress b x y m) =
          { st with clicked := fun j => if j = i then true else st.clicked j,
                    lastClicked := some i,
                    clipboard := set_clipboard (formatChars (boxColor i) st.fmt),
                    commits := st.commits + 1 } := by
        simp [handle_event, hb1, hfb, copy_color_from_box]
      rw [heq]
      intro i2 hi2
      show some i = some i2
      by_cases hii : i2 = i
      · rw [hii]
      · have hi2' : (if i2 = i then true else st.clicked i2) = true := hi2
        rw [if_neg hii] at hi2'
        have h3 := h2 i2 hi2'
        rw [hfb] at h3
        injection h3 with h4
        exact absurd h4.symm hii
  · by_cases hb3 : b = 3
    · cases hfb : find_box rect x y with
      | none =>
        have heq : handle_event rect st (.buttonPress b x y m) = st := by
          simp [handle_event, hb1, hb3, hfb]
        rw [heq]
        exact h
      | some i =>
        by_cases hm : 0 ≤ m
        · have heq : handle_event rect st (.buttonPress b x y m) =
              { st with fmt := m.toNat,
                        clipboard := set_clipboard (formatChars (boxColor i) m.toNat),
                        commits := st.commits + 1 } := by
            simp [handle_event, hb1, hb3, hfb, hm, copy_color_from_box]
          rw [heq]
          intro i2 hi2
          exact h i2 hi2
        · have heq : handle_event rect st (.buttonPress b x y m) = st := by
            simp [handle_event, hb1, hb3, hfb, hm]
          rw [heq]
          exact h
    · have heq : handle_event rect st (.buttonPress b x y m) = st := by
        simp [handle_event, hb1, hb3]
      rw [heq]
      exact h

theorem invClicked_release (rect x y : ℕ) (st : DockState) (h : InvClicked st) :
    InvClicked (handle_event rect st (.buttonRelease x y)) := by
  cases hfb : find_box rect x y with
  | none =>
    have heq : handle_event rect st (.buttonRelease x y) = st := by
      simp [handle_event, hfb]
    rw [heq]
    exact h
  | some i =>
    by_cases hlast : st.lastClicked = some i
    · have heq : handle_event rect st (.buttonRelease x y) =
          { st with clicked := fun j => if j = i then false else st.clicked j,
                    lastClicked := none } := by
        simp [handle_event, hfb, hlast]
      rw [heq]
      intro i2 hi2
      have hi2' : (if i2 = i then false else st.clicked i2) = true := hi2
      by_cases hii : i2 = i
      · rw [if_pos hii] at hi2'
        exact absurd hi2' (by simp)
      · rw [if_neg hii] at hi2'
        have h3 := h i2 hi2'
        rw [hlast] at h3
        injection h3 with h4
        exact absurd h4.symm hii
    · have heq : handle_event rect st (.buttonRelease x y) = st := by
        simp [handle_event, hfb, hlast]
      rw [heq]
      exact h

theorem invClicked_run (rect : ℕ) :
    ∀ (evs : List DockEvent) (st : DockState),
      okSeq evs = true → InvClicked st → InvClicked (run_events rect st evs) := by
  intro evs
  induction evs using okSeq.induct with
  | case1 =>
    intro st _ h
    simpa [run_events] using h
  | case2 x y b x2 y2 m rest ih =>
    intro st hok hinv
    simp only [okSeq, Bool.and_eq_true, decide_eq_true_eq] at hok
    obtain ⟨⟨hx, hy⟩, hrest⟩ := hok
    simp only [run_events, hx, hy]
    obtain ⟨hm1, hm2⟩ := invClicked_motion rect x y st hinv
    exact ih _ hrest (invClicked_press rect b x y m _ hm1 hm2)
  | case3 x y rest hne ih =>
    intro st hok hinv
    have hok2 : okSeq rest = true := by
      cases rest with
      | nil => rfl
      | cons e rest2 =>
        cases e with
        | buttonPress b2 x2 y2 m2 => exact absurd rfl (hne b2 x2 y2 m2 rest2)
        | buttonRelease x2 y2 => simpa [okSeq] using hok
        | motionNotify x2 y2 => simpa [okSeq] using hok
    simp only [run_events]
    exact ih _ hok2 (invClicked_motion rect x y st hinv).1
  | case4 x y rest ih =>
    intro st hok hinv
    simp only [okSeq] at hok
    simp only [run_events]
    exact ih _ hok (invClicked_release rect x y st hinv)
  | case5 =>
    intro st hok hinv
    simp [okSeq] at hok

/-! ### C1: at most one pressed swatch -/

/-- C1 counterexample: starting from the initial state, the two-event
sequence of primary-button presses on box 0 (at (10,10)) and then on box 1
(at (10,70)), with `rect_size = 50`, leaves both `is_clicked` flags set:
the press handler never clears the previously pressed box. -/
theorem two_swatches_pressed :
    (run_events 50 initState
      [DockEvent.buttonPress 1 10 10 0, DockEvent.buttonPress 1 10 70 0]).clicked 0 = true ∧
    (run_events 50 initState
      [DockEvent.buttonPress 1 10 10 0, DockEvent.buttonPress 1 10 70 0]).clicked 1 = true ∧
    (0 : Fin 16) ≠ 1 := by
  decide

/-- C1 (amended): after any finite sequence of press/release/motion events
in which every button press at a point is immediately preceded by a motion
event at the same point, at most one color box has `is_clicked = true`. -/
theorem at_most_one_pressed (rect : ℕ) (evs : List DockEvent) (hok : okSeq evs = true)
    (i j : Fin 16) (hi : (run_events rect initState evs).clicked i = true)
    (hj : (run_events rect initState evs).clicked j = true) : i = j := by
  have hinv := invClicked_run rect evs initState hok invClicked_init
  have h1 := hinv i hi
  have h2 := hinv j hj
  rw [h1] at h2
  injection h2

/-- Witness for `at_most_one_pressed` at a concrete event sequence. -/
theorem at_most_one_pressed_w :
    okSeq [DockEvent.motionNotify 10 10, DockEvent.buttonPress 1 10 10 0] = true ∧
    (run_events 50 initState
      [DockEvent.motionNotify 10 10, DockEvent.buttonPress 1 10 10 0]).clicked 0 = true ∧
    (0 : Fin 16) = 0 :=
  ⟨by decide, by decide,
    at_most_one_pressed 50 [DockEvent.motionNotify 10 10, DockEvent.buttonPress 1 10 10 0]
      (by decide) 0 0 (by decide) (by decide)⟩

/-! ### C2: copy-on-press semantics -/

/-- C2 counterexample: press box 0 at (10,10), then release at (200,200),
a point on no swatch (`rect_size = 50`): the release does not clear the
pressed flag, contradicting "the subsequent release ... always clears the
pressed flag, whether the release lands on the same swatch or on no
swatch". -/
theorem release_off_swatch_keeps_pressed :
    find_box 50 200 200 = none ∧
    (run_events 50 initState
      [DockEvent.buttonPress 1 10 10 0, DockEvent.buttonRelease 200 200]).clicked 0 = true := by
  decide

/-- `ButtonRelease` handling never commits to the clipboard. -/
theorem release_no_commit (rect x y : ℕ) (st : DockState) :
    (handle_event rect st (.buttonRelease x y)).commits = st.commits ∧
    (handle_event rect st (.buttonRelease x y)).clipboard = st.clipboard := by
  cases hfb : find_box rect x y with
  | none =>
    have heq : handle_event rect st (.buttonRelease x y) = st := by
      simp [handle_event, hfb]
    rw [heq]
    exact ⟨rfl, rfl⟩
  | some i =>
    by_cases hlast : st.lastClicked = some i
    · have heq : handle_event rect st (.buttonRelease x y) =
          { st with clicked := fun j => if j = i then false else st.clicked j,
                    lastClicked := none } := by
        simp [handle_event, hfb, hlast]
      rw [heq]
      exact ⟨rfl, rfl⟩
    · have heq : handle_event rect st (.buttonRelease x y) = st := by
        simp [handle_event, hfb, hlast]
      rw [heq]
      exact ⟨rfl, rfl⟩

/-- C2 (amended): a primary-button press landing on a swatch performs
exactly one clipboard commit, at press time, and marks the swatch pressed;
the subsequent release performs no clipboard commit; it clears the
pressed flag when it lands on the same swatch, while a release landing on
no swatch leaves the flag set. -/
theorem press_commits_on_press (rect : ℕ) (st : DockState) (x y : ℕ) (m : ℤ) (i : Fin 16)
    (hfb : find_box rect x y = some i) :
    (handle_event rect st (.buttonPress 1 x y m)).commits = st.commits + 1 ∧
    (handle_event rect st (.buttonPress 1 x y m)).clicked i = true ∧
    (∀ x2 y2 : ℕ,
      (handle_event rect (handle_event rect st (.buttonPress 1 x y m))
        (.buttonRelease x2 y2)).commits =
        (handle_event rect st (.buttonPress 1 x y m)).commits) ∧
    (∀ x2 y2 : ℕ, find_box rect x2 y2 = some i →
      (handle_event rect (handle_event rect st (.buttonPress 1 x y m))
        (.buttonRelease x2 y2)).clicked i = false) ∧
    (∀ x2 y2 : ℕ, find_box rect x2 y2 = none →
      (handle_event rect (handle_event rect st (.buttonPress 1 x y m))
        (.buttonRelease x2 y2)).clicked i = true) := by
  have heq : handle_event rect st (.buttonPress 1 x y m) =
      { st with clicked := fun j => if j = i then true else st.clicked j,
                lastClicked := some i,
                clipboard := set_clipboard (formatChars (boxColor i) st.fmt),
                commits := st.commits + 1 } := by
    simp [handle_event, hfb, copy_color_from_box]
  rw [heq]
  refine ⟨rfl, by simp, fun x2 y2 => (release_no_commit rect x2 y2 _).1, ?_, ?_⟩
  · intro x2 y2 hfb2
    have heq2 : handle_event rect
        { st with clicked := fun j => if j = i then true else st.clicked j,
                  lastClicked := some i,
                  clipboard := set_clipboard (formatChars (boxColor i) st.fmt),
                  commits := st.commits + 1 } (.buttonRelease x2 y2) =
        { st with clicked := fun j => if j = i then false
                    else (if j = i then true else st.clicked j),
                  lastClicked := none,
                  clipboard := set_clipboard (formatChars (boxColor i) st.fmt),
                  commits := st.commits + 1 } := by
      simp [handle_event, hfb2]
    rw [heq2]
    simp
  · intro x2 y2 hfb2
    have heq2 : handle_event rect
        { st with clicked := fun j => if j = i then true else st.clicked j,
                  lastClicked := some i,
                  clipboard := set_clipboard (formatChars (boxColor i) st.fmt),
                  commits := st.commits + 1 } (.buttonRelease x2 y2) =
        { st with clicked := fun j => if j = i then true else st.clicked j,
                  lastClicked := some i,
                  clipboard := set_clipboard (formatChars (boxColor i) st.fmt),
                  commits := st.commits + 1 } := by
      simp [handle_event, hfb2]
    rw [heq2]
    simp

/-- Witness for `press_commits_on_press` at a concrete input. -/
theorem press_commits_on_press_w :
    find_box 50 10 10 = some 0 ∧
    (handle_event 50 initState (DockEvent.buttonPress 1 10 10 0)).commits =
      initState.commits + 1 :=
  ⟨by decide, (press_commits_on_press 50 initState 10 10 0 0 (by decide)).1⟩

/-! ### C4: popup-menu format selection -/

/-- C4: on a secondary-button press landing on a swatch, if the menu
session returns a valid (non-negative) selection then the current format
is set to that selection and exactly one clipboard commit is performed,
with the new format applied to the right-clicked swatch's color; if it
returns a negative value (cancelled), the state is completely unchanged:
no format change and no commit. -/
theorem menu_selection_commits (rect : ℕ) (st : DockState) (x y : ℕ) (m : ℤ) (i : Fin 16)
    (hfb : find_box rect x y = some i) :
    (0 ≤ m →
      (handle_event rect st (.buttonPress 3 x y m)).fmt = m.toNat ∧
      (handle_event rect st (.buttonPress 3 x y m)).commits = st.commits + 1 ∧
      (handle_event rect st (.buttonPress 3 x y m)).clipboard =
        set_clipboard (formatChars (boxColor i) m.toNat) ∧
      (handle_event rect st (.buttonPress 3 x y m)).clicked = st.clicked ∧
      (handle_event rect st (.buttonPress 3 x y m)).lastClicked = st.lastClicked) ∧
    (m < 0 → handle_event rect st (.buttonPress 3 x y m) = st) := by
  constructor
  · intro hm
    have heq : handle_event rect st (.buttonPress 3 x y m) =
        { st with fmt := m.toNat,
                  clipboard := set_clipboard (formatChars (boxColor i) m.toNat),
                  commits := st.commits + 1 } := by
      simp [handle_event, hfb, hm, copy_color_from_box]
    rw [heq]
    exact ⟨rfl, rfl, rfl, rfl, rfl⟩
  · intro hm
    simp [handle_event, hfb, not_le.mpr hm]

/-- Witness for `menu_selection_commits` at a concrete input. -/
theorem menu_selection_commits_w :
    find_box 50 10 10 = some 0 ∧
    (handle_event 50 initState (DockEvent.buttonPress 3 10 10 1)).fmt = 1 ∧
    (handle_event 50 initState (DockEvent.buttonPress 3 10 10 1)).commits =
      initState.commits + 1 ∧
    (handle_event 50 initState (DockEvent.buttonPress 3 10 10 (-1))) = initState :=
  ⟨by decide,
    ((menu_selection_commits 50 initState 10 10 1 0 (by decide)).1 (by decide)).1,
    ((menu_selection_commits 50 initState 10 10 1 0 (by decide)).1 (by decide)).2.1,
    (menu_selection_commits 50 initState 10 10 (-1) 0 (by decide)).2 (by decide)⟩

/-! ### C3: the context-menu session can return an out-of-range index -/

/-- C3: evaluation of the menu session loop at a primary-button press on
the menu window with vertical offset 160 (equal to `menu_height`, i.e. the
bottom border pixel of the 160-pixel-tall surface): the session ends with
selection 8 = `FORMAT_COUNT`, which is neither the cancelled value -1 nor
a valid row index in 0..7 — the guard uses `click_y > menu_height` where
the row range requires `click_y >= menu_height`. -/
theorem menu_bottom_edge_returns_eight :
    context_menu_show [MenuEvent.press 160] = some 8 ∧
    menu_height = 160 ∧
    ¬((8 : ℤ) = -1 ∨ ((0 : ℤ) ≤ 8 ∧ (8 : ℤ) ≤ 7)) := by
  decide

/-! ### Bounds for the rounding functions -/

theorem cround_nonneg {x : ℚ} (hx : 0 ≤ x) : 0 ≤ cround x := by
  unfold cround
  rw [if_pos hx]
  apply Int.floor_nonneg.mpr
  linarith

theorem cround_le {x : ℚ} {B : ℤ} (hx : 0 ≤ x) (h : x ≤ (B : ℚ)) : cround x ≤ B := by
  unfold cround
  rw [if_pos hx]
  have h1 : ⌊x + 1 / 2⌋ ≤ ⌊(B : ℚ) + 1 / 2⌋ := Int.floor_le_floor (by linarith)
  have h2 : ⌊(B : ℚ) + 1 / 2⌋ = B := floor_val (by linarith) (by push_cast; linarith)
  omega

theorem rne_nonneg {x : ℚ} (hx : 0 ≤ x) : 0 ≤ rne x := by
  unfold rne
  have hf : 0 ≤ ⌊x⌋ := Int.floor_nonneg.mpr hx
  split_ifs with h1 h2
  · exact hf
  · omega
  · rw [round_eq]
    apply Int.floor_nonneg.mpr
    linarith

theorem rne_le {x : ℚ} {B : ℤ} (hx : 0 ≤ x) (h : x ≤ (B : ℚ)) : rne x ≤ B := by
  unfold rne
  have hfle : ⌊x⌋ ≤ B := by
    have := Int.floor_le_floor h
    rwa [Int.floor_intCast] at this
  split_ifs with h1 h2
  · exact hfle
  · have hfr : x - (⌊x⌋ : ℚ) = 1 / 2 := by
      have := h1
      rw [Int.fract] at this
      linarith
    have hlt : (⌊x⌋ : ℚ) < (B : ℚ) := by linarith
    have : ⌊x⌋ < B := by exact_mod_cast hlt
    omega
  · rw [round_eq]
    have h3 : ⌊x + 1 / 2⌋ ≤ ⌊(B : ℚ) + 1 / 2⌋ := Int.floor_le_floor (by linarith)
    have h4 : ⌊(B : ℚ) + 1 / 2⌋ = B := floor_val (by linarith) (by push_cast; linarith)
    omega

/-! ### Range of the HSL components -/

theorem hslS_bounds {mx mn : ℚ} (h0 : 0 ≤ mn) (hlt : mn < mx) (h1 : mx ≤ 1) :
    0 ≤ hslS mx mn ∧ hslS mx mn ≤ 1 := by
  unfold hslS
  split_ifs with hl
  · have hsum : 0 < mx + mn := by linarith
    constructor
    · apply div_nonneg (by linarith) (le_of_lt hsum)
    · rw [div_le_one hsum]
      linarith
  · have hsum : 0 < 2 - mx - mn := by
      push_neg at hl
      have hmn1 : mn < 1 := lt_of_lt_of_le hlt h1
      linarith
    constructor
    · apply div_nonneg (by linarith) (le_of_lt hsum)
    · rw [div_le_one hsum]
      linarith

theorem hslH_bounds {rn gn bn mx mn : ℚ} (hlt : mn < mx)
    (hr1 : rn ≤ mx) (hr0 : mn ≤ rn) (hg1 : gn ≤ mx) (hg0 : mn ≤ gn)
    (hb1 : bn ≤ mx) (hb0 : mn ≤ bn) :
    0 ≤ hslH rn gn bn mx mn ∧ hslH rn gn bn mx mn ≤ 360 := by
  simp only [hslH]
  have hd : (0 : ℚ) < mx - mn := by linarith
  have hcore : ∀ a b : ℚ, a ≤ mx → mn ≤ a → b ≤ mx → mn ≤ b →
      -1 ≤ (a - b) / (mx - mn) ∧ (a - b) / (mx - mn) ≤ 1 := by
    intro a b ha1 ha0 hb1 hb0
    constructor
    · rw [le_div_iff hd]
      linarith
    · rw [div_le_one hd]
      linarith
  split_ifs with hR hG hneg hneg hneg
  · obtain ⟨k1, k2⟩ := hcore gn bn hg1 hg0 hb1 hb0
    constructor <;> linarith
  · obtain ⟨k1, k2⟩ := hcore gn bn hg1 hg0 hb1 hb0
    constructor <;> linarith
  · obtain ⟨k1, k2⟩ := hcore bn rn hb1 hb0 hr1 hr0
    constructor <;> linarith
  · obtain ⟨k1, k2⟩ := hcore bn rn hb1 hb0 hr1 hr0
    constructor <;> linarith
  · obtain ⟨k1, k2⟩ := hcore rn gn hr1 hr0 hg1 hg0
    constructor <;> linarith
  · obtain ⟨k1, k2⟩ := hcore rn gn hr1 hr0 hg1 hg0
    constructor <;> linarith

theorem hslParts_bounds (r g b : ℕ) (hr : r ≤ 255) (hg : g ≤ 255) (hb : b ≤ 255) :
    0 ≤ (hslParts r g b).1 ∧ (hslParts r g b).1 ≤ 360 ∧
    0 ≤ (hslParts r g b).2.1 ∧ (hslParts r g b).2.1 ≤ 100 ∧
    0 ≤ (hslParts r g b).2.2 ∧ (hslParts r g b).2.2 ≤ 100 := by
  have hrn0 : (0 : ℚ) ≤ (r : ℚ) / 255 := by positivity
  have hgn0 : (0 : ℚ) ≤ (g : ℚ) / 255 := by positivity
  have hbn0 : (0 : ℚ) ≤ (b : ℚ) / 255 := by positivity
  have hrn1 : (r : ℚ) / 255 ≤ 1 := by
    rw [div_le_one (by norm_num)]
    exact_mod_cast hr
  have hgn1 : (g : ℚ) / 255 ≤ 1 := by
    rw [div_le_one (by norm_num)]
    exact_mod_cast hg
  have hbn1 : (b : ℚ) / 255 ≤ 1 := by
    rw [div_le_one (by norm_num)]
    exact_mod_cast hb
  simp only [hslParts]
  set rn : ℚ := (r : ℚ) / 255 with hdefr
  set gn : ℚ := (g : ℚ) / 255 with hdefg
  set bn : ℚ := (b : ℚ) / 255 with hdefb
  set mx := max rn (max gn bn) with hdefmx
  set mn := min rn (min gn bn) with hdefmn
  have hmx1 : mx ≤ 1 := max_le hrn1 (max_le hgn1 hbn1)
  have hmn0 : (0 : ℚ) ≤ mn := le_min hrn0 (le_min hgn0 hbn0)
  have hrmx : rn ≤ mx := le_max_left _ _
  have hgmx : gn ≤ mx := le_trans (le_max_left _ _) (le_max_right _ _)
  have hbmx : bn ≤ mx := le_trans (le_max_right _ _) (le_max_right _ _)
  have hrmn : mn ≤ rn := min_le_left _ _
  have hgmn : mn ≤ gn := le_trans (min_le_right _ _) (min_le_left _ _)
  have hbmn : mn ≤ bn := le_trans (min_le_right _ _) (min_le_right _ _)
  have hmnmx : mn ≤ mx := le_trans hrmn hrmx
  have hl0 : (0 : ℚ) ≤ (mx + mn) / 2 * 100 := by
    have : (0 : ℚ) ≤ mx := le_trans hmn0 hmnmx
    positivity
  have hl1 : (mx + mn) / 2 * 100 ≤ ((100 : ℤ) : ℚ) := by
    push_cast
    have hmnle : mn ≤ 1 := le_trans hmnmx hmx1
    linarith
  split_ifs with hd
  · exact ⟨le_rfl, by norm_num, le_rfl, by norm_num,
      cround_nonneg hl0, cround_le hl0 hl1⟩
  · have hne : mx ≠ mn := sub_ne_zero.mp hd
    have hlt : mn < mx := lt_of_le_of_ne hmnmx (Ne.symm hne)
    obtain ⟨hs0, hs1⟩ := hslS_bounds hmn0 hlt hmx1
    obtain ⟨hh0, hh1⟩ := hslH_bounds hlt hrmx hrmn hgmx hgmn hbmx hbmn
    have hs0' : (0 : ℚ) ≤ hslS mx mn * 100 := by linarith
    have hs1' : hslS mx mn * 100 ≤ ((100 : ℤ) : ℚ) := by push_cast; linarith
    have hh1' : hslH rn gn bn mx mn ≤ ((360 : ℤ) : ℚ) := by push_cast; linarith
    exact ⟨cround_nonneg hh0, cround_le hh0 hh1',
      cround_nonneg hs0', cround_le hs0' hs1',
      cround_nonneg hl0, cround_le hl0 hl1⟩

/-! ### C7: the HSL conversion -/

theorem cround_zero : cround 0 = 0 :=
  cround_val le_rfl (by norm_num) (by norm_num)

theorem cround_fifty : cround 50 = 50 :=
  cround_val (by norm_num) (by norm_num) (by norm_num)

theorem cround_hundred : cround 100 = 100 :=
  cround_val (by norm_num) (by norm_num) (by norm_num)

/-- In the degenerate case `delta == 0` (all channels equal), hue and
saturation are 0 and lightness is the common normalized channel value. -/
theorem hslParts_equal (n : ℕ) :
    hslParts n n n = (0, 0, cround ((n : ℚ) / 255 * 100)) := by
  simp only [hslParts, max_self, min_self, sub_self, if_pos]
  have harg : ((n : ℚ) / 255 + (n : ℚ) / 255) / 2 * 100 = (n : ℚ) / 255 * 100 := by ring
  rw [harg]

/-- C7: the HSL branch follows the max/min/delta algorithm with the
degenerate case `delta == 0` giving hue 0 and saturation 0 (for every
color with equal channels, hue and saturation are 0); in particular pure
white 0xFFFFFF gives saturation 0 and lightness 100, pure black 0x000000
gives saturation 0 and lightness 0, and pure red 0xFF0000 gives hue 0,
saturation 100, lightness 50 (outputs rounded to nearest). -/
theorem hsl_algorithm :
    (∀ n : ℕ, hslParts n n n = (0, 0, cround ((n : ℚ) / 255 * 100))) ∧
    hslParts 255 255 255 = (0, 0, 100) ∧
    hslParts 0 0 0 = (0, 0, 0) ∧
    hslParts 255 0 0 = (0, 100, 50) := by
  refine ⟨hslParts_equal, ?_, ?_, ?_⟩
  · rw [hslParts_equal 255, show ((255 : ℕ) : ℚ) / 255 * 100 = 100 by norm_num, cround_hundred]
  · rw [hslParts_equal 0, show ((0 : ℕ) : ℚ) / 255 * 100 = 0 by norm_num, cround_zero]
  · have e1 : ((255 : ℕ) : ℚ) / 255 = 1 := by norm_num
    have e0 : ((0 : ℕ) : ℚ) / 255 = 0 := by norm_num
    have emax : max (1 : ℚ) (max 0 0) = 1 := by norm_num [max_def]
    have emin : min (1 : ℚ) (min 0 0) = 0 := by norm_num [min_def]
    simp only [hslParts, e1, e0, emax, emin]
    norm_num [hslH, hslS]
    exact ⟨cround_zero, cround_hundred, cround_fifty⟩

/-! ### C10: every formatted color string fits the clipboard buffer -/

theorem decChars_single {n : ℕ} (h : n < 10) : decChars n = [Nat.digitChar n] := by
  simp [decChars, decCharsAux, h]

theorem intChars_nonneg_length {i : ℤ} (h0 : 0 ≤ i) (h1 : i ≤ 360) :
    (intChars i).length ≤ 3 := by
  unfold intChars
  rw [if_neg (not_lt.mpr h0)]
  exact decChars_length_le_three (by omega)

theorem fixed2_length_unit {q : ℚ} (h0 : 0 ≤ q) (h1 : q ≤ 1) : (fixed2 q).length = 4 := by
  unfold fixed2
  rw [if_neg (not_lt.mpr h0)]
  simp only [fixed2abs]
  have hm0 : 0 ≤ rne (q * 100) := rne_nonneg (by positivity)
  have hm1 : rne (q * 100) ≤ 100 := rne_le (by positivity) (by push_cast; linarith)
  have hd : (rne (q * 100)).toNat / 100 < 10 := by omega
  rw [decChars_single hd]
  simp [pad2]

/-- C10: for every 24-bit color and each of the 8 defined formats, the
formatted string is strictly shorter than `CLIPBOARD_BUFFER_SIZE`, so the
truncation in `set_clipboard` never alters a committed color string. -/
theorem format_color_fits (c f : ℕ) (hc : c < 2 ^ 24) (hf : f < 8) :
    (format_color c f).length < CLIPBOARD_BUFFER_SIZE ∧
    set_clipboard (format_color c f).data = (format_color c f).data := by
  have hr : c / 65536 % 256 < 256 := Nat.mod_lt _ (by norm_num)
  have hg : c / 256 % 256 < 256 := Nat.mod_lt _ (by norm_num)
  have hb : c % 256 < 256 := Nat.mod_lt _ (by norm_num)
  have lr := decChars_length_le_three (show c / 65536 % 256 < 1000 by omega)
  have lg := decChars_length_le_three (show c / 256 % 256 < 1000 by omega)
  have lb := decChars_length_le_three (show c % 256 < 1000 by omega)
  have q0r : (0 : ℚ) ≤ ((c / 65536 % 256 : ℕ) : ℚ) / 255 := by positivity
  have q0g : (0 : ℚ) ≤ ((c / 256 % 256 : ℕ) : ℚ) / 255 := by positivity
  have q0b : (0 : ℚ) ≤ ((c % 256 : ℕ) : ℚ) / 255 := by positivity
  have q1r : ((c / 65536 % 256 : ℕ) : ℚ) / 255 ≤ 1 := by
    rw [div_le_one (by norm_num)]
    exact_mod_cast Nat.le_of_lt_succ hr
  have q1g : ((c / 256 % 256 : ℕ) : ℚ) / 255 ≤ 1 := by
    rw [div_le_one (by norm_num)]
    exact_mod_cast Nat.le_of_lt_succ hg
  have q1b : ((c % 256 : ℕ) : ℚ) / 255 ≤ 1 := by
    rw [div_le_one (by norm_num)]
    exact_mod_cast Nat.le_of_lt_succ hb
  have fr := fixed2_length_unit q0r q1r
  have fg := fixed2_length_unit q0g q1g
  have fb := fixed2_length_unit q0b q1b
  have hlen : (formatChars c f).length < 64 := by
    interval_cases f
    · rw [formatChars_zero]
      simp [hexByteUpper]
    · rw [formatChars_one]
      simp [hexByteLower]
    · rw [formatChars_two]
      simp only [List.length_append]
      have e1 : ("rgb(".data).length = 4 := rfl
      have e2 : (", ".data).length = 2 := rfl
      have e3 : (");".data).length = 2 := rfl
      rw [e1, e2, e3]
      omega
    · rw [formatChars_three]
      simp only [List.length_append]
      have e1 : ("rgba(".data).length = 5 := rfl
      have e2 : (", ".data).length = 2 := rfl
      have e3 : (", 1);".data).length = 5 := rfl
      rw [e1, e2, e3]
      omega
    · rw [formatChars_four]
      obtain ⟨hH0, hH1, hS0, hS1, hL0, hL1⟩ :=
        hslParts_bounds (c / 65536 % 256) (c / 256 % 256) (c % 256)
          (by omega) (by omega) (by omega)
      have lH := intChars_nonneg_length hH0 hH1
      have lS := intChars_nonneg_length hS0 (le_trans hS1 (by norm_num))
      have lL := intChars_nonneg_length hL0 (le_trans hL1 (by norm_num))
      simp only [List.length_append]
      have e1 : ("hsl(".data).length = 4 := rfl
      have e2 : (", ".data).length = 2 := rfl
      have e3 : ("%, ".data).length = 3 := rfl
      have e4 : ("%);".data).length = 3 := rfl
      rw [e1, e2, e3, e4]
      omega
    · rw [formatChars_five]
      simp only [List.length_append]
      have e1 : ("f, ".data).length = 3 := rfl
      have e2 : ("f".data).length = 1 := rfl
      rw [e1, e2, fr, fg, fb]
      omega
    · rw [formatChars_six]
      simp only [List.length_append]
      have e1 : ("vec3(".data).length = 5 := rfl
      have e2 : ("f, ".data).length = 3 := rfl
      have e3 : ("f)".data).length = 2 := rfl
      rw [e1, e2, e3, fr, fg, fb]
      omega
    · rw [formatChars_seven]
      simp only [List.length_append]
      have e1 : ("vec4(".data).length = 5 := rfl
      have e2 : ("f, ".data).length = 3 := rfl
      have e3 : ("f, 1.00f)".data).length = 9 := rfl
      rw [e1, e2, e3, fr, fg, fb]
      omega
  constructor
  · exact hlen
  · show (formatChars c f).take (CLIPBOARD_BUFFER_SIZE - 1) = formatChars c f
    apply List.take_of_length_le
    show (formatChars c f).length ≤ 63
    omega

/-- Witness for `format_color_fits` at a concrete input. -/
theorem format_color_fits_w :
    (0x2E3440 < 2 ^ 24) ∧ (0 < 8) ∧
    (format_color 0x2E3440 0).length < CLIPBOARD_BUFFER_SIZE ∧
    set_clipboard (format_color 0x2E3440 0).data = (format_color 0x2E3440 0).data :=
  ⟨by decide, by decide, (format_color_fits 0x2E3440 0 (by decide) (by decide)).1,
    (format_color_fits 0x2E3440 0 (by decide) (by decide)).2⟩

end ArcticNord

/-!
### Concrete evaluations

Sanity checks that the embedded operations compute the values the program
produces on concrete inputs.
-/

section evaluations
open ArcticNord
example : format_color 0x2E3440 0 = "#2E3440" := by decide
example : format_color 0x2E3440 2 = "rgb(46, 52, 64);" := by decide
example : find_box 50 10 10 = some 0 := by decide
example : find_box 50 10 70 = some 1 := by decide
example : find_box 50 200 200 = none := by decide
example :
    (run_events 50 initState
      [DockEvent.buttonPress 1 10 10 0, DockEvent.buttonPress 1 10 70 0]).clicked 0 = true := by
  decide
example :
    (run_events 50 initState
      [DockEvent.buttonPress 1 10 10 0, DockEvent.buttonPress 1 10 70 0]).clicked 1 = true := by
  decide
example : context_menu_show [MenuEvent.press 160] = some 8 := by decide
example : context_menu_show [MenuEvent.press 159] = some 7 := by decide
example : context_menu_show [MenuEvent.press (-1), MenuEvent.otherEvent] = some (-1) := by decide
example : context_menu_show [MenuEvent.motion 30, MenuEvent.press 30] = some 1 := by decide
example : context_menu_show [MenuEvent.otherPress] = some (-1) := by decide
end evaluations
